import Mathlib

/-!
Verification of the Heads-Up Push-or-Fold repository.

Shallow embedding of `src/strategy.cpp` (the `Strategy` class: 13×13 grid,
`get_index`, `get_strategy`, `set_strategy`) and of the constants declared in
`src/headsup_nash.cpp`.  Cards are integers 1..52 as in the source; the C++
`double` cell values carry no arithmetic here, so the grid is abstracted over
an arbitrary value type.  The C++ array `double strategy[13][13]` is modelled
as a total function on `Nat × Nat`; indices ≥ 13 stand for out-of-bounds
memory, which the constructor loop never writes.

The CFR solver loop of `headsup_nash.cpp` is only declared in the available
source (its body is absent), so the solver-level definitions below are
modelled from the specification and marked as such in their doc comments.
-/

/-- `Strategy::get_index` from `src/strategy.cpp` lines 30–45:
rank `v = (card-1)/4`, suit `s = (card-1)%4`; equal ranks give `(v, v)`;
equal suits give `(max v1 v2, min v1 v2)`; otherwise `(min v1 v2, max v1 v2)`. -/
def get_index (card1 card2 : Nat) : Nat × Nat :=
  let v1 := (card1 - 1) / 4
  let v2 := (card2 - 1) / 4
  if v1 = v2 then (v1, v2)
  else
    let s1 := (card1 - 1) % 4
    let s2 := (card2 - 1) % 4
    if s1 = s2 then (Nat.max v1 v2, Nat.min v1 v2)
    else (Nat.min v1 v2, Nat.max v1 v2)

/-- The `Strategy` class of `src/strategy.cpp`: its only state is the
13×13 array `double strategy[13][13]`, modelled as a total function;
the value type is abstract (the C++ `double` is only stored and read back). -/
structure Strategy (α : Type) where
  grid : Nat → Nat → α

/-- `Strategy::Strategy(double value)` from `src/strategy.cpp` lines 4–13:
the constructor loop writes `value` to every cell with `i < 13` and `j < 13`;
`junk` models the contents of memory outside the array, which the loop
does not touch. -/
def Strategy.construct (junk : Nat → Nat → α) (value : α) : Strategy α :=
  ⟨fun i j => if i < 13 ∧ j < 13 then value else junk i j⟩

/-- `Strategy::get_strategy` from `src/strategy.cpp` lines 16–27. -/
def Strategy.get_strategy (s : Strategy α) (card1 card2 : Nat)
    (is_index_rep : Bool) : α :=
  if is_index_rep then s.grid card1 card2
  else
    let index := get_index card1 card2
    s.grid index.1 index.2

/-- Pointwise update of the 13×13 array, modelling `strategy[i][j] = value`. -/
def updateGrid (g : Nat → Nat → α) (i j : Nat) (v : α) : Nat → Nat → α :=
  fun a b => if a = i ∧ b = j then v else g a b

/-- `Strategy::set_strategy` from `src/strategy.cpp` lines 48–60. -/
def Strategy.set_strategy (s : Strategy α) (card1 card2 : Nat) (value : α)
    (is_index_rep : Bool) : Strategy α :=
  if is_index_rep then ⟨updateGrid s.grid card1 card2 value⟩
  else
    let index := get_index card1 card2
    ⟨updateGrid s.grid index.1 index.2 value⟩

/-- `constexpr size_t HR_SIZE = 32487834;` from `src/headsup_nash.cpp` line 81. -/
def HR_SIZE : Nat := 32487834

/-- `std::array<int, HR_SIZE> handranks;` from `src/headsup_nash.cpp` line 83:
an array of exactly `HR_SIZE` signed 32-bit integers, modelled as a function
on `Fin HR_SIZE` whose values satisfy the 32-bit signed range invariant. -/
structure HandRanks where
  data : Fin HR_SIZE → Int
  bounded : ∀ i, -(2 ^ 31) ≤ data i ∧ data i < 2 ^ 31

/-- A specific two-card hand is suited iff the ranks `(card-1)/4` differ and
the suits `(card-1)%4` agree (the derivation of `src/strategy.cpp`
lines 32–40). -/
def suitedHand (p : Nat × Nat) : Bool :=
  ((p.1 - 1) / 4 != (p.2 - 1) / 4) && ((p.1 - 1) % 4 == (p.2 - 1) % 4)

/-- A pocket pair: the two ranks `(card-1)/4` agree
(`src/strategy.cpp` line 34). -/
def pairHand (p : Nat × Nat) : Bool :=
  (p.1 - 1) / 4 == (p.2 - 1) / 4

/-- An offsuit non-pair hand: ranks differ and suits differ. -/
def offsuitHand (p : Nat × Nat) : Bool :=
  ((p.1 - 1) / 4 != (p.2 - 1) / 4) && ((p.1 - 1) % 4 != (p.2 - 1) % 4)

/-- All 1326 unordered pairs of distinct cards in `[1,52]`, listed with the
smaller card first. -/
def allHands : List (Nat × Nat) :=
  ((List.range 53).flatMap fun c1 => (List.range 53).map fun c2 => (c1, c2)).filter
    fun p => decide (1 ≤ p.1 ∧ p.1 < p.2 ∧ p.2 ≤ 52)

/-- The image of `get_index` over all 1326 hands, with multiplicity. -/
def indexPairs : List (Nat × Nat) :=
  allHands.map fun p => get_index p.1 p.2

/-- `indexPairs` with each pair `(i, j)` encoded as the number `13 * i + j`. -/
def indexCodes : List Nat :=
  allHands.map fun p => 13 * (get_index p.1 p.2).1 + (get_index p.1 p.2).2

/-- Positional histogram of a list of small numbers: each element `x`
contributes `B ^ x`, so digit `x` in base `B` counts the occurrences of `x`
as long as no count reaches `B`. -/
def histSum (B : Nat) (l : List Nat) : Nat :=
  (l.map fun x => B ^ x).sum

/-- A number given by `m` base-`B` digits `c 0, c 1, …, c (m-1)`. -/
def sumDigits (B m : Nat) (c : Nat → Nat) : Nat :=
  ∑ k ∈ Finset.range m, c k * B ^ k

/-- The value of `histSum 2048 indexCodes`, verified against the definition
in `histSum_indexCodes` below; its base-2048 digit at position `13 * i + j`
is the number of specific hands whose index pair is `(i, j)`. -/
def HIST : Nat := 120704831843562040333633805119622393804822076627743952228429658374647821400426556411852301618608476610434570431030833963147375962825801188137199877098700119270774631566324955852202379364563883227841326973772688373238767715934699805118988372192304180868526205833505890875575561921854265141326656401564051534476574141778497590840867371822449945844250210098799427240283671953556048922516409686363966012086320594350958159161547437944065922647175479549058973958965423241109789270270961949650833635479690556768859715835991313955667006592196724819164367344499712006

/-- Per-class accumulator of the CFR solver, one per seat and IndexPair
(spec §3, RegretAccumulator): cumulative regret for PUSH and for FOLD, the
cumulative-strategy sum and the total accumulated weight.

Modelled from the spec: the solver loop of `headsup_nash.cpp` is declared but
its body is not in the available source. -/
structure CellState where
  regretPush : ℚ
  regretFold : ℚ
  cumStrategy : ℚ
  cumWeight : ℚ

/-- The all-zero accumulator every cell starts from. -/
def initCell : CellState := ⟨0, 0, 0, 0⟩

/-- The positive part of a rational. -/
def clampPos (q : ℚ) : ℚ := if q ≤ 0 then 0 else q

/-- Modelled from the spec (§4.4 step 4, regret matching): the current push
probability is proportional to the positive part of the accumulated PUSH
regret versus the accumulated FOLD regret; if both are non-positive the
explicit tie-break is uniform 50/50. -/
def sigmaOf (s : CellState) : ℚ :=
  let rp := clampPos s.regretPush
  let rf := clampPos s.regretFold
  if rp + rf = 0 then 1 / 2 else rp / (rp + rf)

/-- Modelled from the spec (§4.4 steps 2–5): the effect of one iteration on
the visited cell, given the sampled counterfactual utilities
`u = (utility of PUSH, utility of FOLD)`: each action's regret grows by its
utility minus the realized mixed-strategy utility, the current strategy is
added into the cumulative-strategy sum, and the weight grows by 1 (uniform
weighting). -/
def stepCell (s : CellState) (u : ℚ × ℚ) : CellState :=
  let sig := sigmaOf s
  let mixed := sig * u.1 + (1 - sig) * u.2
  { regretPush := s.regretPush + (u.1 - mixed)
    regretFold := s.regretFold + (u.2 - mixed)
    cumStrategy := s.cumStrategy + sig
    cumWeight := s.cumWeight + 1 }

/-- Iterate `stepCell` over a list of sampled utility pairs. -/
def runCell : CellState → List (ℚ × ℚ) → CellState
  | s, [] => s
  | s, u :: us => runCell (stepCell s u) us

/-- The per-iteration (instantaneous) strategies realized along a run. -/
def sigmaList : CellState → List (ℚ × ℚ) → List ℚ
  | _, [] => []
  | s, u :: us => sigmaOf s :: sigmaList (stepCell s u) us

/-- Modelled from the spec (§4.4 step 6): the reported strategy of a cell is
its cumulative-strategy sum normalized by the total accumulated weight. -/
def reportCell (s : CellState) : ℚ := s.cumStrategy / s.cumWeight

/-- Modelled from the spec (§6): the configuration consumed by the solver —
blinds, per-seat stacks and the iteration count. -/
structure SolverConfig where
  smallBlind : ℚ
  bigBlind : ℚ
  stackButton : ℚ
  stackBigBlind : ℚ
  iterations : Nat

/-- Modelled from the spec (§5, "Random-number generation must be seedable
for reproducibility"): a deterministic linear congruential generator stands
in for the random source, whose exact algorithm is outside the available
source. -/
def lcg (x : Nat) : Nat := (1103515245 * x + 12345) % 4294967296

/-- Modelled from the spec (§4.4 step 1): deal `n` cards from the remaining
deck, uniformly driven by the generator state; returns the dealt cards, the
depleted deck and the next generator state.  Dealing from the deck keeps the
two seats' hands disjoint. -/
def dealN : Nat → List Nat → Nat → List Nat × List Nat × Nat
  | 0, deck, x => ([], deck, x)
  | n + 1, deck, x =>
    let k := x % deck.length
    let c := deck.getD k 0
    let rest := dealN n (deck.eraseIdx k) (lcg x)
    (c :: rest.1, rest.2.1, rest.2.2)

/-- The 52-card deck in the specific representation. -/
def fullDeck : List Nat := (List.range 52).map (· + 1)

/-- Modelled from the spec (§9, open question): the exact all-in payoff
arithmetic is not specified by the available source; a deterministic
stand-in compares summed ranks of the two hands. -/
def handScore (h : Nat × Nat) : ℚ := (((h.1 - 1) / 4 + (h.2 - 1) / 4 : Nat) : ℚ)

/-- Modelled from the spec (§4.4 step 2): expected value of PUSH for a seat,
weighted by the opponent's current push probability: called all-ins are won,
lost or tied for the effective stack; an opponent fold wins the big blind. -/
def pushUtility (cfg : SolverConfig) (mine opp : Nat × Nat) (oppSigma : ℚ) : ℚ :=
  let stake := min cfg.stackButton cfg.stackBigBlind
  oppSigma * (if handScore opp < handScore mine then stake
    else if handScore mine < handScore opp then -stake else 0) +
  (1 - oppSigma) * cfg.bigBlind

/-- One full grid of per-class accumulators for a seat. -/
abbrev GridState := (Nat × Nat) → CellState

/-- Update the accumulator of one IndexPair cell. -/
def updateCell (g : GridState) (c : Nat × Nat) (f : CellState → CellState) :
    GridState :=
  fun v => if v = c then f (g v) else g v

/-- Whole-solver state: one accumulator grid per seat plus the generator. -/
structure SolverState where
  button : GridState
  bigBlind : GridState
  rng : Nat

/-- Modelled from the spec (§4.4): one solver iteration — deal two disjoint
random hands, derive each seat's IndexPair, compute each seat's
counterfactual utilities for PUSH and FOLD against the opponent's current
strategy (FOLD forfeits the blind already posted), and update the visited
cell of each seat by the regret-matching step. -/
def solverStep (cfg : SolverConfig) (st : SolverState) : SolverState :=
  let d1 := dealN 2 fullDeck st.rng
  let d2 := dealN 2 d1.2.1 d1.2.2
  let hb : Nat × Nat := (d1.1.getD 0 0, d1.1.getD 1 0)
  let ho : Nat × Nat := (d2.1.getD 0 0, d2.1.getD 1 0)
  let cb := get_index hb.1 hb.2
  let co := get_index ho.1 ho.2
  let sigB := sigmaOf (st.button cb)
  let sigO := sigmaOf (st.bigBlind co)
  let ub : ℚ × ℚ := (pushUtility cfg hb ho sigO, -cfg.smallBlind)
  let uo : ℚ × ℚ := (pushUtility cfg ho hb sigB, -cfg.bigBlind)
  { button := updateCell st.button cb fun s => stepCell s ub
    bigBlind := updateCell st.bigBlind co fun s => stepCell s uo
    rng := d2.2.2 }

/-- The seeded initial solver state: all-zero accumulators. -/
def initState (seed : Nat) : SolverState :=
  ⟨fun _ => initCell, fun _ => initCell, lcg seed⟩

/-- Run the given number of iterations. -/
def solveLoop (cfg : SolverConfig) : Nat → SolverState → SolverState
  | 0, st => st
  | n + 1, st => solveLoop cfg n (solverStep cfg st)

/-- Modelled from the spec (§4.4 step 6, §6 Output): run the configured
iteration count from the seeded initial state and report, per seat and per
IndexPair, the normalized cumulative strategy. -/
def runSolver (cfg : SolverConfig) (seed : Nat) :
    ((Nat × Nat) → ℚ) × ((Nat × Nat) → ℚ) :=
  let done := solveLoop cfg cfg.iterations (initState seed)
  (fun c => reportCell (done.button c), fun c => reportCell (done.bigBlind c))

/-! ## Helper lemmas -/

/-- Both ranks derived from cards bounded by 52 are below 13. -/
theorem get_index_lt_13 (c1 c2 : Nat) (h2 : c1 ≤ 52) (h4 : c2 ≤ 52) :
    (get_index c1 c2).1 < 13 ∧ (get_index c1 c2).2 < 13 := by
  have a1 : (c1 - 1) / 4 < 13 := by omega
  have a2 : (c2 - 1) / 4 < 13 := by omega
  simp only [get_index]
  split_ifs <;> refine ⟨?_, ?_⟩ <;> simp [max_lt_iff, min_lt_iff, a1, a2]

/-- Every element of `allHands` is a strictly ordered pair of cards
in `[1,52]`. -/
theorem allHands_bounds : ∀ p ∈ allHands, 1 ≤ p.1 ∧ p.1 < p.2 ∧ p.2 ≤ 52 := by
  intro p hp
  exact of_decide_eq_true (List.mem_filter.mp hp).2

set_option maxRecDepth 100000 in
/-- There are 1326 two-card hands. -/
theorem allHands_length : allHands.length = 1326 := by decide

/-- `indexCodes` also has 1326 entries. -/
theorem indexCodes_length : indexCodes.length = 1326 := by
  rw [indexCodes, List.length_map, allHands_length]

/-- Every encoded index is below 169. -/
theorem indexCodes_elems_lt : ∀ x ∈ indexCodes, x < 169 := by
  intro x hx
  rcases List.mem_map.mp hx with ⟨p, hp, rfl⟩
  have hb := allHands_bounds p hp
  have h1 := get_index_lt_13 p.1 p.2 (by omega) (by omega)
  omega

set_option maxRecDepth 100000 in
/-- The histogram of `indexCodes` in base 2048 evaluates to the recorded
constant. -/
theorem histSum_indexCodes : histSum 2048 indexCodes = HIST := by decide

/-- A histogram sum is the number whose base-`B` digits are the counts,
provided every element is below `m`. -/
theorem histSum_eq_sumDigits (B m : Nat) (l : List Nat) (h : ∀ x ∈ l, x < m) :
    histSum B l = sumDigits B m fun k => l.count k := by
  induction l with
  | nil => simp [histSum, sumDigits]
  | cons x xs ih =>
    have hx : x < m := h x (List.mem_cons_self x xs)
    have ih' := ih fun y hy => h y (List.mem_cons_of_mem x hy)
    simp only [histSum, List.map_cons, List.sum_cons] at ih' ⊢
    rw [ih']
    simp only [sumDigits]
    have hsplit : (∑ k ∈ Finset.range m, List.count k (x :: xs) * B ^ k) =
        ∑ k ∈ Finset.range m,
          (List.count k xs * B ^ k + if x = k then B ^ k else 0) := by
      refine Finset.sum_congr rfl ?_
      intro k hk
      rw [List.count_cons, add_mul]
      congr 1
      by_cases hkx : x = k
      · simp [beq_iff_eq, hkx]
      · simp [beq_iff_eq, hkx]
    have hind : (∑ k ∈ Finset.range m, if x = k then B ^ k else 0) = B ^ x := by
      rw [Finset.sum_ite_eq (Finset.range m) x fun k => B ^ k]
      simp [Finset.mem_range, hx]
    rw [hsplit, Finset.sum_add_distrib, hind]
    omega

/-- A number with `m` digits below `B` is below `B ^ m`. -/
theorem sumDigits_lt (B m : Nat) (c : Nat → Nat) (hB : 0 < B)
    (hc : ∀ k, k < m → c k < B) : sumDigits B m c < B ^ m := by
  induction m with
  | zero => simp [sumDigits]
  | succ m ih =>
    have h1 : sumDigits B m c < B ^ m := ih fun k hk => hc k (by omega)
    have h2 : c m < B := hc m (by omega)
    have h3 : c m * B ^ m ≤ (B - 1) * B ^ m :=
      Nat.mul_le_mul_right _ (by omega)
    have h4 : B ^ (m + 1) = B ^ m + (B - 1) * B ^ m := by
      have : B ^ (m + 1) = B * B ^ m := by
        rw [pow_succ, mul_comm]
      rw [this]
      have hB1 : B = 1 + (B - 1) := by omega
      calc B * B ^ m = (1 + (B - 1)) * B ^ m := by rw [← hB1]
        _ = B ^ m + (B - 1) * B ^ m := by rw [add_mul, one_mul]
    rw [sumDigits] at h1
    rw [sumDigits, Finset.sum_range_succ, h4]
    omega

/-- Base-`B` digit extraction from a digit sum: digit `j` is `c j`. -/
theorem sumDigits_extract (B m : Nat) (c : Nat → Nat) (hB : 2 ≤ B)
    (hc : ∀ k, k < m → c k < B) :
    ∀ j, j < m → sumDigits B m c / B ^ j % B = c j := by
  induction m with
  | zero => exact fun j hj => absurd hj (Nat.not_lt_zero j)
  | succ m ih =>
    intro j hj
    have hBpos : 0 < B := by omega
    have hpj : 0 < B ^ j := pow_pos hBpos j
    rw [sumDigits, Finset.sum_range_succ]
    rcases Nat.lt_or_ge j m with hjm | hjm
    · have hsplit : c m * B ^ m = c m * B ^ (m - j - 1) * B * B ^ j := by
        have hpow : B ^ (m - j - 1) * (B * B ^ j) = B ^ m := by
          rw [← pow_succ', ← pow_add]
          congr 1
          omega
        calc c m * B ^ m = c m * (B ^ (m - j - 1) * (B * B ^ j)) := by
              rw [hpow]
          _ = c m * B ^ (m - j - 1) * B * B ^ j := by ring
      rw [hsplit, Nat.add_mul_div_right _ _ hpj, Nat.add_mul_mod_self_right]
      have ihm := ih (fun k hk => hc k (by omega)) j hjm
      rw [sumDigits] at ihm
      exact ihm
    · have hje : j = m := by omega
      subst hje
      have hlt : (∑ k ∈ Finset.range j, c k * B ^ k) < B ^ j := by
        have := sumDigits_lt B j c hBpos fun k hk => hc k (by omega)
        rw [sumDigits] at this
        exact this
      rw [Nat.add_mul_div_right _ _ hpj, Nat.div_eq_of_lt hlt, Nat.zero_add,
        Nat.mod_eq_of_lt (hc j (by omega))]

/-- Each count of an encoded class equals the matching base-2048 digit of
the recorded histogram constant. -/
theorem indexCodes_count_eq_digit (j : Nat) (hj : j < 169) :
    indexCodes.count j = HIST / 2048 ^ j % 2048 := by
  have hcnt : ∀ k, k < 169 → indexCodes.count k < 2048 := by
    intro k _
    have h := List.count_le_length k indexCodes
    rw [indexCodes_length] at h
    omega
  have h1 := histSum_eq_sumDigits 2048 169 indexCodes indexCodes_elems_lt
  have h2 := sumDigits_extract 2048 169 (fun k => indexCodes.count k)
    (by omega) hcnt j hj
  calc indexCodes.count j
      = sumDigits 2048 169 (fun k => indexCodes.count k) / 2048 ^ j % 2048 :=
        h2.symm
    _ = histSum 2048 indexCodes / 2048 ^ j % 2048 := by rw [← h1]
    _ = HIST / 2048 ^ j % 2048 := by rw [histSum_indexCodes]

set_option maxRecDepth 10000 in
/-- The digits of the histogram constant: 6 on the diagonal, 4 below it,
12 above it. -/
theorem hist_digits :
    ∀ a ∈ List.range 13, ∀ b ∈ List.range 13,
      HIST / 2048 ^ (13 * a + b) % 2048 =
        if a = b then 6 else if b < a then 4 else 12 := by
  decide

/-- Counting a pair in `indexPairs` is counting its code in `indexCodes`. -/
theorem indexPairs_count_eq_code_count (a b : Nat) (ha : a < 13)
    (hb : b < 13) : indexPairs.count (a, b) = indexCodes.count (13 * a + b) := by
  rw [List.count_eq_countP, List.count_eq_countP, indexPairs, indexCodes,
    List.countP_map, List.countP_map]
  refine List.countP_congr ?_
  intro p hp
  have hbp := allHands_bounds p hp
  have h1 := get_index_lt_13 p.1 p.2 (by omega) (by omega)
  simp only [Function.comp_apply, beq_iff_eq, Prod.ext_iff]
  omega

/-- The number of hands in each IndexPair class: 6 on the diagonal, 4 in the
upper-triangular (suited) cells, 12 in the lower-triangular (offsuit) cells. -/
theorem indexPairs_count_closed (a b : Nat) (ha : a < 13) (hb : b < 13) :
    indexPairs.count (a, b) = if a = b then 6 else if b < a then 4 else 12 := by
  rw [indexPairs_count_eq_code_count a b ha hb,
    indexCodes_count_eq_digit (13 * a + b) (by omega)]
  exact hist_digits a (List.mem_range.mpr ha) b (List.mem_range.mpr hb)

/-- Each hand lands in exactly one branch of `get_index`, and the branch is
visible in the order of the two coordinates. -/
theorem get_index_shape (c1 c2 : Nat) :
    (pairHand (c1, c2) = true ∧ (get_index c1 c2).1 = (get_index c1 c2).2) ∨
    (suitedHand (c1, c2) = true ∧ (get_index c1 c2).2 < (get_index c1 c2).1) ∨
    (offsuitHand (c1, c2) = true ∧ (get_index c1 c2).1 < (get_index c1 c2).2) := by
  simp only [pairHand, suitedHand, offsuitHand, get_index, Bool.and_eq_true,
    bne_iff_ne, beq_iff_eq, ne_eq]
  split_ifs with h1 h2
  · exact Or.inl ⟨h1, h1⟩
  · exact Or.inr (Or.inl ⟨⟨h1, h2⟩, min_lt_max.mpr h1⟩)
  · exact Or.inr (Or.inr ⟨⟨h1, h2⟩, min_lt_max.mpr h1⟩)

/-- The distinct index pairs are exactly the 13×13 grid. -/
theorem indexPairs_toFinset :
    indexPairs.toFinset = Finset.range 13 ×ˢ Finset.range 13 := by
  ext v
  simp only [List.mem_toFinset, Finset.mem_product, Finset.mem_range]
  constructor
  · intro hv
    rcases List.mem_map.mp hv with ⟨p, hp, rfl⟩
    have hbp := allHands_bounds p hp
    exact get_index_lt_13 p.1 p.2 (by omega) (by omega)
  · rintro ⟨ha, hb⟩
    have hpos : 0 < indexPairs.count (v.1, v.2) := by
      rw [indexPairs_count_closed v.1 v.2 ha hb]
      split_ifs <;> omega
    have := List.count_pos_iff.mp hpos
    simpa using this

/-- The cumulative-strategy field accumulates exactly the per-iteration
strategies realized along the run. -/
theorem runCell_cumStrategy (s : CellState) (us : List (ℚ × ℚ)) :
    (runCell s us).cumStrategy = s.cumStrategy + (sigmaList s us).sum := by
  induction us generalizing s with
  | nil => simp [runCell, sigmaList]
  | cons u us ih =>
    simp only [runCell, sigmaList, List.sum_cons, ih, stepCell]
    ring

/-- The weight field accumulates 1 per iteration. -/
theorem runCell_cumWeight (s : CellState) (us : List (ℚ × ℚ)) :
    (runCell s us).cumWeight = s.cumWeight + us.length := by
  induction us generalizing s with
  | nil => simp [runCell]
  | cons u us ih =>
    simp only [runCell, ih, stepCell, List.length_cons]
    push_cast
    ring

/-! ## Claims -/

/-- Claim C1 (evaluation of the defect): at the offsuit hand `(7, 52)` — the
three of hearts and the ace of spades, the very example worked in the source
commentary of `src/headsup_nash.cpp`, whose documented index is `(12, 1)` —
`Strategy::get_index` returns `(1, 12)`, first coordinate the LOWER rank;
and at the suited hand `(1, 5)` (deuce and three of clubs) it returns
`(1, 0)`, first coordinate the HIGHER rank.  The code thus realizes the
exact mirror image of the claimed (and documented) convention. -/
theorem get_index_convention_mirrored :
    offsuitHand (7, 52) = true ∧ get_index 7 52 = (1, 12) ∧
    suitedHand (1, 5) = true ∧ get_index 1 5 = (1, 0) := by
  decide

/-- Claim C2: `get_index` is total over the 1326 unordered two-card hands
and partitions them into exactly 169 classes: each of the 13 diagonal cells
is hit by exactly 6 hands, each of the 78 cells hit by suited hands by
exactly 4, each of the 78 cells hit by offsuit hands by exactly 12, and
13·6 + 78·4 + 78·12 = 1326. -/
theorem get_index_class_partition :
    allHands.length = 1326 ∧
    indexPairs.toFinset.card = 169 ∧
    (∀ r ∈ List.range 13, indexPairs.count (r, r) = 6) ∧
    (∀ a ∈ List.range 13, ∀ b ∈ List.range 13, b < a →
      indexPairs.count (a, b) = 4 ∧
      ∀ p ∈ allHands, get_index p.1 p.2 = (a, b) → suitedHand p = true) ∧
    (∀ a ∈ List.range 13, ∀ b ∈ List.range 13, a < b →
      indexPairs.count (a, b) = 12 ∧
      ∀ p ∈ allHands, get_index p.1 p.2 = (a, b) → offsuitHand p = true) ∧
    13 * 6 + 78 * 4 + 78 * 12 = 1326 := by
  refine ⟨allHands_length, ?_, ?_, ?_, ?_, rfl⟩
  · rw [indexPairs_toFinset]
    simp
  · intro r hr
    rw [List.mem_range] at hr
    rw [indexPairs_count_closed r r hr hr]
    simp
  · intro a ha b hb hba
    rw [List.mem_range] at ha hb
    constructor
    · rw [indexPairs_count_closed a b ha hb]
      rw [if_neg (by omega), if_pos hba]
    · intro p hp hgi
      rcases get_index_shape p.1 p.2 with h | h | h
      · rw [hgi] at h
        simp only [Prod.fst, Prod.snd] at h
        omega
      · exact h.1
      · rw [hgi] at h
        simp only [Prod.fst, Prod.snd] at h
        omega
  · intro a ha b hb hab
    rw [List.mem_range] at ha hb
    constructor
    · rw [indexPairs_count_closed a b ha hb]
      rw [if_neg (by omega), if_neg (by omega)]
    · intro p hp hgi
      rcases get_index_shape p.1 p.2 with h | h | h
      · rw [hgi] at h
        simp only [Prod.fst, Prod.snd] at h
        omega
      · rw [hgi] at h
        simp only [Prod.fst, Prod.snd] at h
        omega
      · exact h.1

/-- Witness for C2 at the pocket-ace class `(12, 12)` and the suited class
`(12, 0)`. -/
theorem get_index_class_partition_witness :
    indexPairs.count (12, 12) = 6 ∧ indexPairs.count (12, 0) = 4 := by
  refine ⟨get_index_class_partition.2.2.1 12 (by decide), ?_⟩
  exact (get_index_class_partition.2.2.2.1 12 (by decide) 0 (by decide)
    (by decide)).1

/-- Claim C3: for distinct cards in `[1,52]` and any state of the grid, the
specific-representation accessor agrees with the index-representation
accessor applied at the derived index pair:
`get_strategy c1 c2 false = get_strategy i1 i2 true` where
`(i1, i2) = get_index c1 c2`. -/
theorem get_strategy_reps_agree {α : Type} (s : Strategy α) (c1 c2 : Nat)
    (h1 : 1 ≤ c1) (h2 : c1 ≤ 52) (h3 : 1 ≤ c2) (h4 : c2 ≤ 52) (h5 : c1 ≠ c2) :
    s.get_strategy c1 c2 false =
      s.get_strategy (get_index c1 c2).1 (get_index c1 c2).2 true := rfl

/-- Witness for C3 at the concrete hand `(7, 52)` on a concrete grid. -/
theorem get_strategy_reps_agree_witness :
    (Strategy.mk fun i j => i * 13 + j).get_strategy 7 52 false =
      (Strategy.mk fun i j => i * 13 + j).get_strategy
        (get_index 7 52).1 (get_index 7 52).2 true :=
  get_strategy_reps_agree _ 7 52 (by decide) (by decide) (by decide)
    (by decide) (by decide)

/-- Claim C4: a freshly constructed `Strategy(value)` holds `value` in every
cell of the 13×13 grid: for every index pair with both coordinates at most
12, `get_strategy i j true = value`, whatever the prior memory contents. -/
theorem construct_uniform {α : Type} (junk : Nat → Nat → α) (v : α)
    (i j : Nat) (hi : i ≤ 12) (hj : j ≤ 12) :
    (Strategy.construct junk v).get_strategy i j true = v := by
  simp only [Strategy.construct, Strategy.get_strategy, if_pos]
  rw [if_pos ⟨by omega, by omega⟩]

/-- Witness for C4 at cell `(5, 7)` with initial value `1`. -/
theorem construct_uniform_witness :
    (Strategy.construct (fun i j => i + j) 1).get_strategy 5 7 true = 1 :=
  construct_uniform _ 1 5 7 (by decide) (by decide)

/-- Claim C5: `get_index` does not depend on the order of the two cards.
For distinct cards in `[1,52]` (as the claim states),
`get_index card1 card2 = get_index card2 card1`. -/
theorem get_index_comm (c1 c2 : Nat) (h1 : 1 ≤ c1) (h2 : c1 ≤ 52)
    (h3 : 1 ≤ c2) (h4 : c2 ≤ 52) (h5 : c1 ≠ c2) :
    get_index c1 c2 = get_index c2 c1 := by
  simp only [get_index]
  split_ifs with ha hb hc hd he <;>
    simp_all [Prod.ext_iff, Nat.max_comm, Nat.min_comm] <;> omega

/-- Witness for C5 at the concrete hand `(7, 52)`. -/
theorem get_index_comm_witness :
    get_index 7 52 = get_index 52 7 :=
  get_index_comm 7 52 (by decide) (by decide) (by decide) (by decide)
    (by decide)

set_option maxRecDepth 100000 in
/-- Claim C6 (solver loop modelled from the spec): the grids `runSolver`
reports are, cell by cell and for each seat, the normalized cumulative
state of the run; the normalized cumulative state of any cell run is the
plain time average of the per-iteration instantaneous strategies; and on a
concrete one-iteration run the reported average differs from the final
instantaneous strategy, so the report is the average and not the last
iteration's strategy. -/
theorem reported_strategy_is_time_average :
    (∀ cfg seed c,
      (runSolver cfg seed).1 c =
        reportCell ((solveLoop cfg cfg.iterations (initState seed)).button c) ∧
      (runSolver cfg seed).2 c =
        reportCell ((solveLoop cfg cfg.iterations (initState seed)).bigBlind c)) ∧
    (∀ us : List (ℚ × ℚ),
      reportCell (runCell initCell us) =
        (sigmaList initCell us).sum / (us.length : ℚ)) ∧
    reportCell (runCell initCell [(1, 0)]) ≠
      sigmaOf (runCell initCell [(1, 0)]) := by
  refine ⟨fun cfg seed c => ⟨rfl, rfl⟩, ?_, ?_⟩
  · intro us
    rw [reportCell, runCell_cumStrategy, runCell_cumWeight]
    simp [initCell]
  · simp only [runCell, stepCell, sigmaOf, initCell, reportCell, clampPos]
    norm_num

/-- Witness for C6: on a concrete two-iteration run the reported cell value
is the average of the two realized strategies. -/
theorem reported_strategy_is_time_average_witness :
    reportCell (runCell initCell [(1, 0), (3, 1)]) =
      (sigmaList initCell [(1, 0), (3, 1)]).sum /
        (([(1, 0), (3, 1)] : List (ℚ × ℚ)).length : ℚ) :=
  reported_strategy_is_time_average.2.1 [(1, 0), (3, 1)]

/-- Claim C7 (solver modelled from the spec): the solver output is a pure
function of the configuration and the seed — two runs with equal
configuration and equal seed produce identical output grids for both seats. -/
theorem solver_deterministic (cfg1 cfg2 : SolverConfig) (s1 s2 : Nat)
    (hc : cfg1 = cfg2) (hs : s1 = s2) :
    runSolver cfg1 s1 = runSolver cfg2 s2 := by
  rw [hc, hs]

/-- Witness for C7 at a concrete configuration and seed. -/
theorem solver_deterministic_witness :
    runSolver ⟨1, 2, 10, 10, 2⟩ 42 = runSolver ⟨1, 2, 10, 10, 2⟩ 42 :=
  solver_deterministic _ _ _ _ rfl rfl

/-- Claim C8: the process-wide hand-rank table is an array of exactly
32,487,834 signed 32-bit integers: `HR_SIZE` is 32,487,834, the index type
has exactly that many values, and every stored value fits a signed 32-bit
integer. -/
theorem handranks_size :
    HR_SIZE = 32487834 ∧ Fintype.card (Fin HR_SIZE) = 32487834 ∧
    ∀ t : HandRanks, ∀ i, -(2 ^ 31) ≤ t.data i ∧ t.data i < 2 ^ 31 :=
  ⟨rfl, by rw [Fintype.card_fin]; rfl, fun t i => t.bounded i⟩

/-- Claim C9: set-then-get roundtrips in both representations.  In the index
representation, after `set_strategy i j v true`, `get_strategy i j true`
returns exactly `v`; in the specific representation, for distinct cards in
`[1,52]`, after `set_strategy c1 c2 v false`, `get_strategy c1 c2 false`
returns exactly `v`. -/
theorem set_get_roundtrip {α : Type} (s : Strategy α) (v : α)
    (i j c1 c2 : Nat) (hi : i ≤ 12) (hj : j ≤ 12)
    (h1 : 1 ≤ c1) (h2 : c1 ≤ 52) (h3 : 1 ≤ c2) (h4 : c2 ≤ 52) (h5 : c1 ≠ c2) :
    (s.set_strategy i j v true).get_strategy i j true = v ∧
      (s.set_strategy c1 c2 v false).get_strategy c1 c2 false = v := by
  constructor <;>
    simp [Strategy.set_strategy, Strategy.get_strategy, updateGrid]

/-- Witness for C9 at cell `(5, 7)` and hand `(7, 52)`. -/
theorem set_get_roundtrip_witness :
    ((Strategy.mk fun _ _ => (0 : Nat)).set_strategy 5 7 9 true).get_strategy
        5 7 true = 9 ∧
      ((Strategy.mk fun _ _ => (0 : Nat)).set_strategy 7 52 9
        false).get_strategy 7 52 false = 9 :=
  set_get_roundtrip _ 9 5 7 7 52 (by decide) (by decide) (by decide)
    (by decide) (by decide) (by decide) (by decide)

/-- Claim C10: for distinct cards in `[1,52]`, both coordinates produced by
`get_index` are below 13, hence every access that `get_strategy` and
`set_strategy` perform in the specific representation on the 13×13 array
`strategy[13][13]` is strictly within bounds. -/
theorem get_index_in_bounds (c1 c2 : Nat) (h1 : 1 ≤ c1) (h2 : c1 ≤ 52)
    (h3 : 1 ≤ c2) (h4 : c2 ≤ 52) (h5 : c1 ≠ c2) :
    (get_index c1 c2).1 < 13 ∧ (get_index c1 c2).2 < 13 :=
  get_index_lt_13 c1 c2 h2 h4

/-- Witness for C10 at the concrete hand `(7, 52)`. -/
theorem get_index_in_bounds_witness :
    (get_index 7 52).1 < 13 ∧ (get_index 7 52).2 < 13 :=
  get_index_in_bounds 7 52 (by decide) (by decide) (by decide) (by decide)
    (by decide)
